import Mathlib

set_option maxRecDepth 100000

/-!
Shallow embedding of the cachebro cache engine, translated from
`src/packages/sdk/src/cache.ts` (CacheStore.readFile and the SQL tables it
touches) and `src/unnamed/part_003` (computeDiff, the current differ built on
the external fast-myers-diff package).

Modelling conventions:
- JS strings are Lean `String`s; all concrete inputs are ASCII, so
  `String.length` (code points) agrees with JS `.length` (UTF-16 units).
- `content.split("\n")` is `String.splitOn`, which has identical semantics
  (splitting the empty string yields `[""]`).
- The SQLite tables are association lists of row structures; each SQL
  statement used by `readFile` is embedded as a list operation.
- The content hash (`createHash("sha256")... .slice(0, 16)`) is an abstract
  function parameter `h : String → String`; theorems that need
  collision-resistance assume `Function.Injective h`, mirroring the spec's
  "two Revisions with the same hash are assumed byte-identical".
- The branch resolver (`getCurrentBranch`, which shells out to git) and the
  ignore matcher (the external `ignore` npm package) are injected as data:
  the branch is a field of the request, the matcher a `String → Bool`.
- Node path resolution is external; `filePath`, `absPath` and `relPath` are
  identified.
- `Date.now()` is a `now : Nat` parameter; timestamps never steer control
  flow.
- The FTS index tables (`file_content_fts`, `indexed_files`) are not part of
  the cache decision logic; `updateIndexInternal` is a no-op whenever
  `searchEnabled` is false, and we model that configuration.
-/

/-- Split a character list at every newline character (the splitter of
`text.split("\n")`; splitting an empty text yields one empty piece). -/
def splitNl : List Char → List (List Char)
  | [] => [[]]
  | c :: cs =>
    let rest := splitNl cs
    if c = '\n' then [] :: rest
    else
      match rest with
      | r :: rs => (c :: r) :: rs
      | [] => [c] :: []

/-- JS `text.split("\n")` (Lean's `String.splitOn "\n"`), implemented over the
character list so that concrete instances evaluate by kernel reduction. -/
def splitLines (s : String) : List String := (splitNl s.data).map String.mk

/-- JS `text.split("\n").length`, the line count used throughout cache.ts. -/
def countLines (s : String) : Nat := (splitLines s).length

/-- JS `lines.join("\n")` (Lean's `String.intercalate "\n"`), implemented over
character lists for kernel reduction. -/
def joinLines (l : List String) : String :=
  String.mk (List.intercalate ['\n'] (l.map String.data))

/-- cache.ts `estimateTokens`: `Math.ceil(text.length * 0.75)`. For natural
lengths `n`, `n * 0.75` is exact in binary floating point (up to 2^51), so
this equals `ceil(3n/4)`. -/
def estimateTokens (s : String) : Nat := (3 * s.length + 3) / 4

/-- Clamp one endpoint of JS `Array.prototype.slice`: negative indices count
from the end, and both ends clamp into `[0, len]`. -/
def jsSliceIndex (len : Nat) (i : Int) : Nat :=
  if i < 0 then ((len : Int) + i).toNat else min i.toNat len

/-- JS `arr.slice(s, e)` for arrays. -/
def jsSlice {α : Type} (l : List α) (s e : Int) : List α :=
  (l.take (jsSliceIndex l.length e)).drop (jsSliceIndex l.length s)

/-- The `readFile` options record: `{ offset?, limit?, toolName? }`.
Numbers are `Int` (JS numbers; the code subtracts 1 from the offset before
clamping). -/
structure ReadOptions where
  offset : Option Int := none
  limit : Option Int := none
  toolName : String := "read_file"
deriving Repr, DecidableEq

/-- cache.ts line 369: `(options?.offset ?? 0) > 0 || (options?.limit ?? 0) > 0`. -/
def isPartialReq (o : ReadOptions) : Bool :=
  o.offset.getD 0 > 0 || o.limit.getD 0 > 0

/-- cache.ts `sliceLines` (lines 370-376): slice the requested 1-based line
range out of a text. A present-but-zero `limit` is falsy in JS, hence the
explicit zero test. -/
def sliceLines (o : ReadOptions) (text : String) : String :=
  if !isPartialReq o then text
  else
    let lines := splitLines text
    let start : Int := o.offset.getD 1 - 1
    let stop : Int :=
      match o.limit with
      | some l => if l ≠ 0 then start + l else (lines.length : Int)
      | none => (lines.length : Int)
    joinLines (jsSlice lines start stop)

/-- The range start printed in the unchanged label: `options?.offset ?? 1`. -/
def rangeLabelStart (o : ReadOptions) : Int := o.offset.getD 1

/-- The range end printed in the unchanged label:
`options?.limit ? (options.offset ?? 1) + options.limit - 1 : currentLines`. -/
def rangeLabelEnd (o : ReadOptions) (currentLines : Nat) : Int :=
  match o.limit with
  | some l => if l ≠ 0 then o.offset.getD 1 + l - 1 else (currentLines : Int)
  | none => (currentLines : Int)

/-- Models JS `(t / 1000).toFixed(1)` for a token count `t`: one decimal,
rounded to nearest (half up). -/
def toFixed1k (t : Nat) : String :=
  let d := (t + 50) / 100
  s!"{d / 10}.{d % 10}"

/-- cache.ts line 428: `` originalTokens >= 1000 ? `~${(originalTokens / 1000).toFixed(1)}k` : `~${originalTokens}` ``. -/
def savedLabel (t : Nat) : String :=
  if t ≥ 1000 then s!"~{toFixed1k t}k" else s!"~{t}"

/-- The confirmation string of the UNCHANGED branch (cache.ts lines 429-431). -/
def unchangedLabel (o : ReadOptions) (currentLines origTokens : Nat) : String :=
  if isPartialReq o then
    s!"[unchanged · lines {rangeLabelStart o}-{rangeLabelEnd o currentLines} of {currentLines} · {savedLabel origTokens} saved]"
  else
    s!"[unchanged · {currentLines} lines · {savedLabel origTokens} saved]"

/-! ## The differ (src/unnamed/part_003) -/

/-- The `type` tag of a raw diff entry. -/
inductive DiffKind where
  | keep
  | add
  | remove
deriving Repr, DecidableEq, Inhabited

/-- One element of the differ's `rawLines` array:
`{ type, line, oldLine, newLine }` (1-based line numbers). -/
structure RawLine where
  kind : DiffKind
  line : String
  oldLine : Nat
  newLine : Nat
deriving Repr, DecidableEq, Inhabited

/-- One change window `[sx, ex, sy, ey]` as yielded by fast-myers-diff:
`old[sx:ex]` is replaced by `new[sy:ey]`. -/
structure ChangeRegion where
  sx : Nat
  ex : Nat
  sy : Nat
  ey : Nat
deriving Repr, DecidableEq

/-- The `DiffResult` record of part_003 (`changedNewLines` is a JS `Set`;
modelled as the list of inserted numbers, queried only by membership). -/
structure DiffResult where
  diff : String
  linesChanged : Nat
  hasChanges : Bool
  changedNewLines : List Nat
deriving Repr, DecidableEq

/-- A run of `keep` entries copied from the old side (the `while (oldPos < sx)`
loop and the trailing loop of part_003). -/
def keepRun (oldLines : List String) (oldPos newPos cnt : Nat) : List RawLine :=
  (List.range cnt).map fun k =>
    ⟨DiffKind.keep, oldLines.getD (oldPos + k) "", oldPos + k + 1, newPos + k + 1⟩

/-- Accumulator of the `rawLines` construction loop. -/
structure RawState where
  lines : List RawLine
  oldPos : Nat
  newPos : Nat
  linesChanged : Nat
  changedNew : List Nat
deriving Repr, DecidableEq

/-- One iteration of part_003's `for (const [sx, ex, sy, ey] of changes)` loop
(lines 31-70): emit the keeps before the window, then the removed lines (each
recording the adjacent new-file position `newPos + 1`), then the added lines. -/
def buildRawStep (oldLines newLines : List String) (st : RawState) (r : ChangeRegion) : RawState :=
  let keeps := keepRun oldLines st.oldPos st.newPos (r.sx - st.oldPos)
  let newPos := st.newPos + (r.sx - st.oldPos)
  let removes := (List.range (r.ex - r.sx)).map fun k =>
    (⟨DiffKind.remove, oldLines.getD (r.sx + k) "", r.sx + k + 1, newPos + 1⟩ : RawLine)
  let adds := (List.range (r.ey - r.sy)).map fun k =>
    (⟨DiffKind.add, newLines.getD (r.sy + k) "", r.ex + 1, r.sy + k + 1⟩ : RawLine)
  { lines := st.lines ++ keeps ++ removes ++ adds
    oldPos := r.ex
    newPos := r.ey
    linesChanged := st.linesChanged + (r.ex - r.sx) + (r.ey - r.sy)
    changedNew := st.changedNew
      ++ (List.range (r.ex - r.sx)).map (fun _ => newPos + 1)
      ++ (List.range (r.ey - r.sy)).map (fun k => r.sy + k + 1) }

/-- The full `rawLines` construction of part_003 (lines 25-82): fold the change
windows, then emit the remaining unchanged lines. -/
def buildRaw (oldLines newLines : List String) (changes : List ChangeRegion) : RawState :=
  let st := changes.foldl (buildRawStep oldLines newLines) ⟨[], 0, 0, 0, []⟩
  { st with lines := st.lines ++ keepRun oldLines st.oldPos st.newPos (oldLines.length - st.oldPos) }

/-- Accumulator of the hunk-grouping loop of part_003 (lines 89-127). -/
structure HunkAcc where
  groups : List (List RawLine)
  current : List RawLine
  lastChangeIdx : Int
deriving Repr, DecidableEq

/-- part_003 line 89: `const CONTEXT = 3`. -/
def diffContext : Nat := 3

/-- The leading-context loop `for (let c = Math.max(0, i - CONTEXT); c < i; c++)`. -/
def leadContext (raw : List RawLine) (i : Nat) : List RawLine :=
  let lo := i - diffContext
  (List.range (i - lo)).map fun k => raw.getD (lo + k) default

/-- The gap-fill loop of part_003 lines 112-118:
`for (let c = Math.max(contextEnd, currentHunk.length > 0 ? i : 0); c < i; c++)`
pushing `rawLines[c]` unless already included. (`includes` compares object
identity in JS; all entries produced by `buildRaw` are pairwise distinct
records, so structural equality coincides.) -/
def gapFill (raw : List RawLine) (acc : List RawLine) (startC : Int) (i : Nat) : List RawLine :=
  (List.range i).foldl
    (fun cur (c : Nat) =>
      if startC ≤ (c : Int) then
        let l := raw.getD c default
        if cur.contains l then cur else cur ++ [l]
      else cur)
    acc

/-- One iteration of the hunk-grouping loop (part_003 lines 95-124), at index `i`. -/
def hunkStep (raw : List RawLine) (acc : HunkAcc) (i : Nat) : HunkAcc :=
  let line := raw.getD i default
  if line.kind ≠ DiffKind.keep then
    let acc1 :=
      if (i : Int) - acc.lastChangeIdx > 2 * diffContext + 1 ∧ acc.current.length > 0 then
        { groups := acc.groups ++ [acc.current], current := leadContext raw i,
          lastChangeIdx := acc.lastChangeIdx }
      else if acc.current.length = 0 then
        { acc with current := leadContext raw i }
      else acc
    let contextEnd : Int := acc.lastChangeIdx + diffContext + 1
    let startC : Int := max contextEnd (if acc1.current.length > 0 then (i : Int) else 0)
    { groups := acc1.groups, current := gapFill raw acc1.current startC i ++ [line],
      lastChangeIdx := (i : Int) }
  else if (i : Int) - acc.lastChangeIdx ≤ diffContext ∧ acc.current.length > 0 then
    { acc with current := acc.current ++ [line] }
  else acc

/-- The hunk-grouping pass of part_003 (lines 90-127): group the raw entries
into hunks of consecutive changes with surrounding context. -/
def groupHunks (raw : List RawLine) : List (List RawLine) :=
  let acc := (List.range raw.length).foldl (hunkStep raw) ⟨[], [], -999⟩
  if acc.current.length > 0 then acc.groups ++ [acc.current] else acc.groups

/-- A formatted hunk: the `@@ -oldStart,oldCount +newStart,newCount @@` header
data together with its entries. -/
structure Hunk where
  oldStart : Nat
  oldCount : Nat
  newStart : Nat
  newCount : Nat
  entries : List RawLine
deriving Repr, DecidableEq

/-- Header computation of part_003 lines 130-148: `oldStart`/`newStart` from
the hunk's first entry, `oldCount` counts non-added entries, `newCount` counts
non-removed entries. -/
def mkHunk (g : List RawLine) : Hunk :=
  let firstLine := g.headD default
  { oldStart := firstLine.oldLine
    oldCount := (g.filter fun l => l.kind ≠ DiffKind.add).length
    newStart := firstLine.newLine
    newCount := (g.filter fun l => l.kind ≠ DiffKind.remove).length
    entries := g }

/-- The ` `/`+`/`-` prefix of a formatted diff line. -/
def kindMark (k : DiffKind) : String :=
  match k with
  | DiffKind.add => "+"
  | DiffKind.remove => "-"
  | DiffKind.keep => " "

/-- Render one hunk: header line then prefixed entry lines (part_003 lines 148-153). -/
def formatHunk (h : Hunk) : List String :=
  s!"@@ -{h.oldStart},{h.oldCount} +{h.newStart},{h.newCount} @@"
    :: h.entries.map fun l => kindMark l.kind ++ l.line

/-! ### Model of the external fast-myers-diff dependency

`computeDiff` begins with `const changes = diff(oldLines, newLines)` where
`diff` comes from the npm package `fast-myers-diff`, which is not part of this
repository. -/

/-- Pick the longer of two candidate subsequences (ties keep the first). -/
def pickLonger (u v : List String) : List String :=
  if v.length > u.length then v else u

/-- One row update of the longest-common-subsequence table. -/
def lcsRow (x : String) (b : List String) (prevRow : List (List String)) : List (List String) :=
  let trips := b.zip (prevRow.zip prevRow.tail)
  (trips.foldl
    (fun acc t =>
      let diag := t.2.1
      let up := t.2.2
      let left := acc.headD []
      (if x == t.1 then diag ++ [x] else pickLonger left up) :: acc)
    [([] : List String)]).reverse

/-- Modelled from the spec: the DiffEngine "must compute a minimal edit
script". A longest common subsequence of the two line lists, standing in for
the alignment fast-myers-diff computes; on inputs whose minimal edit script is
unique (all concrete inputs below), every minimal-script differ yields the
same change windows. -/
def lcsOfLines (a b : List String) : List String :=
  (a.foldl (fun row x => lcsRow x b row) (List.replicate (b.length + 1) [])).getLastD []

/-- A classification step of the diff walk. -/
inductive StepKind where
  | keep
  | add
  | remove
deriving Repr, DecidableEq

/-- Walk the two line lists against a common subsequence, classifying each
line as kept, added or removed (the walk terminates: each step consumes at
least one line, and `fuel` starts at the total line count). -/
def diffWalk (fuel : Nat) (a b lcs : List String) : List StepKind :=
  match fuel with
  | 0 => []
  | Nat.succ f =>
    if a.isEmpty && b.isEmpty then []
    else if !lcs.isEmpty && !a.isEmpty && a.headD "" == lcs.headD ""
        && !b.isEmpty && b.headD "" == lcs.headD "" then
      StepKind.keep :: diffWalk f a.tail b.tail lcs.tail
    else if !b.isEmpty && (lcs.isEmpty || b.headD "" != lcs.headD "") then
      StepKind.add :: diffWalk f a b.tail lcs
    else if !a.isEmpty && (lcs.isEmpty || a.headD "" != lcs.headD "") then
      StepKind.remove :: diffWalk f a.tail b lcs
    else []

/-- Accumulator for regrouping walk steps into change windows. -/
structure RegionAcc where
  regions : List ChangeRegion
  cur : Option ChangeRegion
  oldPos : Nat
  newPos : Nat

/-- Regroup a step sequence into maximal change windows separated by kept
lines, the shape in which fast-myers-diff reports changes. -/
def regionsOfSteps (steps : List StepKind) : List ChangeRegion :=
  let st := steps.foldl
    (fun st s =>
      match s with
      | StepKind.keep =>
        { regions := st.regions ++ (match st.cur with | some r => [r] | none => [])
          cur := none, oldPos := st.oldPos + 1, newPos := st.newPos + 1 }
      | StepKind.add =>
        let r := st.cur.getD ⟨st.oldPos, st.oldPos, st.newPos, st.newPos⟩
        { st with cur := some { r with ey := r.ey + 1 }, newPos := st.newPos + 1 }
      | StepKind.remove =>
        let r := st.cur.getD ⟨st.oldPos, st.oldPos, st.newPos, st.newPos⟩
        { st with cur := some { r with ex := r.ex + 1 }, oldPos := st.oldPos + 1 })
    (⟨[], none, 0, 0⟩ : RegionAcc)
  st.regions ++ (match st.cur with | some r => [r] | none => [])

/-- Modelled from the spec: the change windows `[sx, ex, sy, ey]` of a minimal
edit script between the two line lists, as returned by the external
`fast-myers-diff` package's `diff`. -/
def myersRegions (a b : List String) : List ChangeRegion :=
  regionsOfSteps (diffWalk (a.length + b.length) a b (lcsOfLines a b))

/-- The `rawLines` array `computeDiff` builds for a pair of contents. -/
def rawStateOf (oldContent newContent : String) : RawState :=
  buildRaw (splitLines oldContent) (splitLines newContent)
    (myersRegions (splitLines oldContent) (splitLines newContent))

/-- The structured hunks of `computeDiff`'s output for a pair of contents. -/
def computeHunks (oldContent newContent : String) : List Hunk :=
  (groupHunks (rawStateOf oldContent newContent).lines).map mkHunk

/-- part_003 `computeDiff` (lines 19-162): build the raw edit script, count the
changed lines, group into hunks and render the unified diff with a two-line
file header. -/
def computeDiff (oldContent newContent filePath : String) : DiffResult :=
  let st := rawStateOf oldContent newContent
  if st.linesChanged = 0 then
    { diff := "", linesChanged := 0, hasChanges := false, changedNewLines := st.changedNew }
  else
    let hunkLines := (computeHunks oldContent newContent).foldl
      (fun acc h => acc ++ formatHunk h) []
    let header := s!"--- a/{filePath}\n+++ b/{filePath}"
    { diff := header ++ "\n" ++ joinLines hunkLines
      linesChanged := st.linesChanged
      hasChanges := true
      changedNewLines := st.changedNew }

/-- Modelled from the spec: "applying the diff's hunks to the old content
reproduces the new content exactly" — standard patch replay. For each hunk in
order: copy old lines up to the hunk's 1-based `oldStart`, then walk the
entries (a kept or added entry emits its line, kept and removed entries
consume one old line); afterwards copy the remaining old lines. -/
def applyHunk (old : List String) (acc : List String × Nat) (h : Hunk) : List String × Nat :=
  let oldPos := acc.2
  let upTo := h.oldStart - 1
  let copied := acc.1 ++ (old.drop oldPos).take (upTo - oldPos)
  let oldPos := max oldPos upTo
  h.entries.foldl
    (fun (st : List String × Nat) e =>
      match e.kind with
      | DiffKind.keep => (st.1 ++ [e.line], st.2 + 1)
      | DiffKind.add => (st.1 ++ [e.line], st.2)
      | DiffKind.remove => (st.1, st.2 + 1))
    (copied, oldPos)

/-- Replay a hunk list over the old lines (spec §8 round-trip property). -/
def applyHunks (hs : List Hunk) (old : List String) : List String :=
  let st := hs.foldl (applyHunk old) ([], 0)
  st.1 ++ old.drop st.2

/-! ## The cache store (src/packages/sdk/src/cache.ts) -/

/-- A row of the `file_versions` table (schema lines 9-16; primary key
`(path, hash)`). -/
structure VersionRow where
  path : String
  hash : String
  content : String
  lines : Nat
  createdAt : Nat
deriving Repr, DecidableEq

/-- A row of the `session_reads` table (schema lines 18-25; primary key
`(session_id, branch, path)`). -/
structure ReadRow where
  sessionId : String
  branch : String
  path : String
  hash : String
  readAt : Nat
deriving Repr, DecidableEq

/-- A row of the `file_mtimes` table (schema lines 61-65; primary key `path`). -/
structure MtimeRow where
  path : String
  hash : String
  mtimeMs : Int
deriving Repr, DecidableEq

/-- A row of the `session_events` table (schema lines 27-35). -/
structure EventRow where
  sessionId : String
  branch : String
  eventType : String
  path : String
  hash : String
  timestamp : Nat
deriving Repr, DecidableEq

/-- A row of the `session_metrics` table (schema lines 37-45; primary key
`(session_id, branch, tool)`). -/
structure MetricRow where
  sessionId : String
  branch : String
  tool : String
  calls : Nat
  tokensOriginal : Nat
  tokensActual : Nat
deriving Repr, DecidableEq

/-- The cache database: the tables `readFile` touches, plus the
`stats`/`session_stats` token counters. -/
structure Db where
  fileVersions : List VersionRow
  sessionReads : List ReadRow
  fileMtimes : List MtimeRow
  sessionEvents : List EventRow
  sessionMetrics : List MetricRow
  tokensSaved : Nat
  sessionStats : List (String × Nat)
deriving Repr, DecidableEq

/-- `SELECT hash FROM file_mtimes WHERE path = ? AND mtime_ms = ?` (`.get`). -/
def selectMtime (db : Db) (p : String) (m : Int) : Option MtimeRow :=
  db.fileMtimes.find? fun r => r.path == p && r.mtimeMs == m

/-- `SELECT content, lines FROM file_versions WHERE path = ? AND hash = ?`. -/
def selectVersion (db : Db) (p h : String) : Option VersionRow :=
  db.fileVersions.find? fun r => r.path == p && r.hash == h

/-- `SELECT hash FROM session_reads WHERE session_id = ? AND branch = ? AND path = ?` (`.all`). -/
def selectReads (db : Db) (s b p : String) : List ReadRow :=
  db.sessionReads.filter fun r => r.sessionId == s && r.branch == b && r.path == p

/-- `INSERT OR REPLACE INTO file_mtimes` (primary key `path`). -/
def insertOrReplaceMtime (db : Db) (r : MtimeRow) : Db :=
  { db with fileMtimes := r :: db.fileMtimes.filter fun x => x.path != r.path }

/-- `INSERT OR IGNORE INTO file_versions` (primary key `(path, hash)`): the
content-addressed revision write, a no-op when the key is present. -/
def insertOrIgnoreVersion (db : Db) (r : VersionRow) : Db :=
  if db.fileVersions.any (fun x => x.path == r.path && x.hash == r.hash) then db
  else { db with fileVersions := r :: db.fileVersions }

/-- `UPDATE session_reads SET read_at = ? WHERE session_id = ? AND branch = ? AND path = ?`. -/
def updateReadAt (db : Db) (s b p : String) (t : Nat) : Db :=
  { db with sessionReads := db.sessionReads.map fun r =>
      if r.sessionId == s && r.branch == b && r.path == p then { r with readAt := t } else r }

/-- `UPDATE session_reads SET hash = ?, read_at = ? WHERE session_id = ? AND branch = ? AND path = ?`. -/
def updateReadHash (db : Db) (s b p h : String) (t : Nat) : Db :=
  { db with sessionReads := db.sessionReads.map fun r =>
      if r.sessionId == s && r.branch == b && r.path == p then
        { r with hash := h, readAt := t }
      else r }

/-- `INSERT OR REPLACE INTO session_reads` (primary key `(session_id, branch, path)`). -/
def insertOrReplaceRead (db : Db) (r : ReadRow) : Db :=
  { db with sessionReads := r :: db.sessionReads.filter fun x =>
      !(x.sessionId == r.sessionId && x.branch == r.branch && x.path == r.path) }

/-- `INSERT INTO session_events ...` (`logEvent`, cache.ts lines 228-230). -/
def insertEvent (db : Db) (e : EventRow) : Db :=
  { db with sessionEvents := db.sessionEvents ++ [e] }

/-- The upsert of `addMetrics` (cache.ts line 233):
`INSERT ... ON CONFLICT(session_id, branch, tool) DO UPDATE SET calls = calls + 1, ...`. -/
def addMetricsRows (rows : List MetricRow) (s b tool : String) (orig actual : Nat) : List MetricRow :=
  if rows.any (fun r => r.sessionId == s && r.branch == b && r.tool == tool) then
    rows.map fun r =>
      if r.sessionId == s && r.branch == b && r.tool == tool then
        { r with
          calls := r.calls + 1
          tokensOriginal := r.tokensOriginal + orig
          tokensActual := r.tokensActual + actual }
      else r
  else rows ++ [⟨s, b, tool, 1, orig, actual⟩]

/-- The `session_stats` upsert of `addTokensSavedInternal` (cache.ts line 788). -/
def addSessionStat (rows : List (String × Nat)) (s : String) (tokens : Nat) : List (String × Nat) :=
  if rows.any (fun r => r.1 == s) then
    rows.map fun r => if r.1 == s then (r.1, r.2 + tokens) else r
  else rows ++ [(s, tokens)]

/-- cache.ts `addMetrics` (lines 232-236): record the per-tool token metrics;
when `original > actual`, also bump the global and per-session
`tokens_saved` counters (`Math.max(0, original - actual)` is `Nat` subtraction). -/
def addMetrics (db : Db) (s b tool : String) (orig actual : Nat) : Db :=
  let db1 := { db with sessionMetrics := addMetricsRows db.sessionMetrics s b tool orig actual }
  let saved := orig - actual
  if saved > 0 then
    { db1 with
      tokensSaved := db1.tokensSaved + saved
      sessionStats := addSessionStat db1.sessionStats s saved }
  else db1

/-- What `statSync`/`readFileSync` observe for one path: content and mtime. -/
structure FsEntry where
  content : String
  mtimeMs : Int
deriving Repr, DecidableEq

/-- One `readFile` request: the session (the CacheStore's `sessionId`), the
branch reported by the injected resolver, the path and the options. -/
structure Request where
  sessionId : String
  branch : String
  path : String
  opts : ReadOptions := {}
deriving Repr, DecidableEq

/-- The `FileReadResult` record returned by `readFile` (types.ts lines 12-25;
`totalLines` is always set by `readFile`). -/
structure FileReadResult where
  cached : Bool
  content : String
  diff : Option String := none
  linesChanged : Option Nat := none
  totalLines : Nat
  hash : String
deriving Repr, DecidableEq

/-- Output of the mtime fast-path: the resolved current content, hash and line
count, and the database as left by the resolution. -/
structure Resolved where
  content : String
  hash : String
  lines : Nat
  db : Db
deriving Repr, DecidableEq

/-- The mtime fast-path of `readFile` (cache.ts lines 386-418): a stored
`(path, mtime)` entry with a matching `file_versions` row short-circuits the
disk read; otherwise the content is (re)read, hashed, and the mtime entry is
refreshed. -/
def resolveCurrent (h : String → String) (db : Db) (path : String) (fe : FsEntry) : Resolved :=
  match selectMtime db path fe.mtimeMs with
  | some row =>
    match selectVersion db path row.hash with
    | some v => ⟨v.content, row.hash, v.lines, db⟩
    | none =>
      let c := fe.content
      ⟨c, h c, countLines c, insertOrReplaceMtime db ⟨path, h c, fe.mtimeMs⟩⟩
  | none =>
    let c := fe.content
    ⟨c, h c, countLines c, insertOrReplaceMtime db ⟨path, h c, fe.mtimeMs⟩⟩

/-- cache.ts line 447: `const MAX_DIFF_LINES = 200`. -/
def maxDiffLines : Nat := 200

/-- The shared tail of `readFile` (cache.ts lines 457-462): log a read event,
record break-even metrics, persist the revision, upsert the read pointer and
return the (possibly sliced) current content uncached. -/
def readFileTail (now : Nat) (req : Request) (content hsh : String) (lines : Nat)
    (db : Db) (origTokens : Nat) : FileReadResult × Db :=
  let db := insertEvent db ⟨req.sessionId, req.branch, "read", req.path, hsh, now⟩
  let db := addMetrics db req.sessionId req.branch req.opts.toolName origTokens origTokens
  let db := insertOrIgnoreVersion db ⟨req.path, hsh, content, lines, now⟩
  let db := insertOrReplaceRead db ⟨req.sessionId, req.branch, req.path, hsh, now⟩
  ({ cached := false
     content := if isPartialReq req.opts then sliceLines req.opts content else content
     totalLines := lines
     hash := hsh }, db)

/-- The session-pointer logic of `readFile` (cache.ts lines 420-462), applied
to the resolved current content. `updateIndexInternal` (lines 438 and 459)
only touches the FTS tables and is a no-op with search disabled. -/
def readFileCore (now : Nat) (req : Request) (rv : Resolved) : FileReadResult × Db :=
  let db := rv.db
  let originalContent := if isPartialReq req.opts then sliceLines req.opts rv.content else rv.content
  let originalTokens := estimateTokens originalContent
  match selectReads db req.sessionId req.branch req.path with
  | lastRow :: _ =>
    if lastRow.hash == rv.hash then
      let db := insertEvent db ⟨req.sessionId, req.branch, "read", req.path, rv.hash, now⟩
      let label := unchangedLabel req.opts rv.lines originalTokens
      let db := addMetrics db req.sessionId req.branch req.opts.toolName originalTokens
        (estimateTokens label)
      let db := updateReadAt db req.sessionId req.branch req.path now
      ({ cached := true
         content := label
         linesChanged := some 0
         totalLines := rv.lines
         hash := rv.hash }, db)
    else
      let oldVersion := selectVersion db req.path lastRow.hash
      let db := insertEvent db ⟨req.sessionId, req.branch, "write", req.path, rv.hash, now⟩
      let db := insertOrIgnoreVersion db ⟨req.path, rv.hash, rv.content, rv.lines, now⟩
      let db := updateReadHash db req.sessionId req.branch req.path rv.hash now
      match oldVersion with
      | some ov =>
        let diffResult := computeDiff ov.content rv.content req.path
        if diffResult.hasChanges then
          let diffLines := splitLines diffResult.diff
          let diffOutput :=
            if diffLines.length > maxDiffLines then
              joinLines (diffLines.take maxDiffLines)
                ++ s!"\n[... diff truncated at {maxDiffLines} lines. File has {diffResult.linesChanged} total changes.]"
            else diffResult.diff
          let actualContent :=
            if isPartialReq req.opts then sliceLines req.opts rv.content else diffOutput
          let db := addMetrics db req.sessionId req.branch req.opts.toolName originalTokens
            (estimateTokens actualContent)
          ({ cached := true
             content := actualContent
             diff := some diffOutput
             linesChanged := some diffResult.linesChanged
             totalLines := rv.lines
             hash := rv.hash }, db)
        else readFileTail now req rv.content rv.hash rv.lines db originalTokens
      | none => readFileTail now req rv.content rv.hash rv.lines db originalTokens
  | [] => readFileTail now req rv.content rv.hash rv.lines db originalTokens

/-- `CacheStore.readFile` (cache.ts lines 358-464). `none` models the
`statSync` throw on an unreadable path (NotFound); an ignored path bypasses
the cache entirely (lines 378-384); otherwise the mtime fast-path resolves the
current content and the session logic decides the outcome. -/
def readFile (h : String → String) (ign : String → Bool) (now : Nat)
    (fs : String → Option FsEntry) (db : Db) (req : Request) :
    Option (FileReadResult × Db) :=
  match fs req.path with
  | none => none
  | some fe =>
    if ign req.path then
      let currentContent := fe.content
      let content :=
        if isPartialReq req.opts then sliceLines req.opts currentContent else currentContent
      let db := addMetrics db req.sessionId req.branch req.opts.toolName
        (estimateTokens content) (estimateTokens content)
      some ({ cached := false
              content := content
              totalLines := countLines currentContent
              hash := h currentContent }, db)
    else
      some (readFileCore now req (resolveCurrent h db req.path fe))

/-- Run a list of `readFile` requests in order, threading the database; a
request whose path is unreadable leaves the database unchanged. -/
def runReads (h : String → String) (ign : String → Bool) (now : Nat)
    (fs : String → Option FsEntry) (db : Db) (reqs : List Request) : Db :=
  reqs.foldl
    (fun db req =>
      match readFile h ign now fs db req with
      | some (_, db') => db'
      | none => db)
    db

/-- Well-formedness of the persisted tables relative to the hash function and
the current filesystem: every revision row stores the hash and line count of
its own content, and every mtime row whose stored mtime still matches the
file's current mtime stores the hash of the file's current content (mtime rows
are only ever written with the hash of the content read at that mtime). -/
def wfDb (h : String → String) (fs : String → Option FsEntry) (db : Db) : Prop :=
  (∀ v ∈ db.fileVersions, v.hash = h v.content ∧ v.lines = countLines v.content) ∧
  (∀ m ∈ db.fileMtimes,
    match fs m.path with
    | some fe => m.mtimeMs = fe.mtimeMs → m.hash = h fe.content
    | none => True)

/-- No read pointer is stored for `(s, b, p)`. -/
def noPointer (db : Db) (s b p : String) : Prop :=
  ∀ r ∈ db.sessionReads, ¬(r.sessionId = s ∧ r.branch = b ∧ r.path = p)

/-- Rows of `file_versions` with the given `(path, hash)` key. -/
def versionKeyCount (db : Db) (p h : String) : Nat :=
  (db.fileVersions.filter fun r => r.path == p && r.hash == h).length

/-- Number of raw entries of a given kind (the added/removed counts of the
edit script). -/
def countKind (k : DiffKind) (l : List RawLine) : Nat :=
  l.countP fun e => e.kind == k

/-- An empty cache database (the state of a fresh store). -/
def emptyDb : Db := ⟨[], [], [], [], [], 0, []⟩

/-- A one-file filesystem used by the concrete witnesses: path `"f"` holds
three lines `a`, `b`, `c` with mtime 7. -/
def witFs : String → Option FsEntry :=
  fun p => if p = "f" then some ⟨"a\nb\nc", 7⟩ else none

/-- The old content of the range-reconciliation scenario: eight numbered lines. -/
def exC1Old : String := "1\n2\n3\n4\n5\n6\n7\n8"

/-- The new content of the range-reconciliation scenario: lines 1 and 8
modified, lines 2-7 untouched. -/
def exC1New : String := "1x\n2\n3\n4\n5\n6\n7\n8x"

/-- Store state in which session `s` has already read `exC1Old` of file `"f"`
on branch `main`, and that revision is persisted. -/
def exC1Db : Db :=
  ⟨[⟨"f", exC1Old, exC1Old, 8, 0⟩], [⟨"s", "main", "f", exC1Old, 0⟩], [], [], [], 0, []⟩

/-- Filesystem for the range-reconciliation scenario: `"f"` now holds the
modified content. -/
def exC1Fs : String → Option FsEntry :=
  fun p => if p = "f" then some ⟨exC1New, 5⟩ else none

/-! ## Lemmas about the edit-script counts -/

theorem countKind_append (k : DiffKind) (l1 l2 : List RawLine) :
    countKind k (l1 ++ l2) = countKind k l1 + countKind k l2 := by
  simp [countKind, List.countP_append]

theorem countKind_keepRun (k : DiffKind) (hk : k ≠ DiffKind.keep)
    (o : List String) (a b c : Nat) : countKind k (keepRun o a b c) = 0 := by
  simp only [countKind, keepRun, List.countP_eq_zero]
  intro e he
  simp only [List.mem_map, List.mem_range] at he
  obtain ⟨i, _, rfl⟩ := he
  simpa [beq_iff_eq] using fun h => hk h.symm

/-- The loop invariant of the `rawLines` construction: the running
`linesChanged` counter equals the number of added plus removed entries. -/
def rawCountInv (st : RawState) : Prop :=
  st.linesChanged = countKind DiffKind.add st.lines + countKind DiffKind.remove st.lines

theorem buildRawStep_inv (ol nl : List String) (st : RawState) (r : ChangeRegion)
    (ih : rawCountInv st) : rawCountInv (buildRawStep ol nl st r) := by
  unfold rawCountInv at ih ⊢
  simp only [buildRawStep, countKind_append]
  rw [countKind_keepRun _ (by simp) , countKind_keepRun _ (by simp)]
  have hra : countKind DiffKind.add ((List.range (r.ex - r.sx)).map fun k =>
      (⟨DiffKind.remove, ol.getD (r.sx + k) "", r.sx + k + 1, st.newPos + (r.sx - st.oldPos) + 1⟩ : RawLine)) = 0 := by
    simp [countKind, List.countP_eq_zero]
  have hrr : countKind DiffKind.remove ((List.range (r.ex - r.sx)).map fun k =>
      (⟨DiffKind.remove, ol.getD (r.sx + k) "", r.sx + k + 1, st.newPos + (r.sx - st.oldPos) + 1⟩ : RawLine)) = r.ex - r.sx := by
    simp [countKind, List.countP_map, Function.comp_def, List.countP_true]
  have haa : countKind DiffKind.add ((List.range (r.ey - r.sy)).map fun k =>
      (⟨DiffKind.add, nl.getD (r.sy + k) "", r.ex + 1, r.sy + k + 1⟩ : RawLine)) = r.ey - r.sy := by
    simp [countKind, List.countP_map, Function.comp_def, List.countP_true]
  have har : countKind DiffKind.remove ((List.range (r.ey - r.sy)).map fun k =>
      (⟨DiffKind.add, nl.getD (r.sy + k) "", r.ex + 1, r.sy + k + 1⟩ : RawLine)) = 0 := by
    simp [countKind, List.countP_eq_zero]
  rw [hra, hrr, haa, har]
  omega

theorem buildRaw_foldl_inv (ol nl : List String) (regions : List ChangeRegion) :
    ∀ st : RawState, rawCountInv st →
      rawCountInv (regions.foldl (buildRawStep ol nl) st) := by
  induction regions with
  | nil => intro st h; exact h
  | cons r rs ih => intro st h; exact ih _ (buildRawStep_inv ol nl st r h)

theorem buildRaw_inv (ol nl : List String) (regions : List ChangeRegion) :
    rawCountInv (buildRaw ol nl regions) := by
  unfold buildRaw rawCountInv
  have h := buildRaw_foldl_inv ol nl regions ⟨[], 0, 0, 0, []⟩ (by simp [rawCountInv, countKind])
  set st := regions.foldl (buildRawStep ol nl) ⟨[], 0, 0, 0, []⟩ with hst
  simp only [countKind_append]
  rw [countKind_keepRun _ (by simp), countKind_keepRun _ (by simp)]
  unfold rawCountInv at h
  omega

theorem computeDiff_linesChanged_raw (oldC newC fp : String) :
    (computeDiff oldC newC fp).linesChanged = (rawStateOf oldC newC).linesChanged := by
  by_cases h : (rawStateOf oldC newC).linesChanged = 0
  · simp [computeDiff, h]
  · simp [computeDiff, h]

/-- C4 (counterexample): for old content `"a\nb\nc\n"` and new content
`"a\nB\nc\nd\n"`, `computeDiff` does not report 2 changed lines as the claim
states — it reports added + removed entries, which is 3 here (remove `b`, add
`B`, add `d`). -/
theorem computeDiff_scenario_not_two :
    (computeDiff "a\nb\nc\n" "a\nB\nc\nd\n" "f").linesChanged ≠ 2 ∧
    (computeDiff "a\nb\nc\n" "a\nB\nc\nd\n" "f").linesChanged = 3 := by
  constructor
  · decide
  · rfl

/-- C4 (amended): `computeDiff` reports `linesChanged` equal to the number of
added entries plus the number of removed entries of its edit script; in
particular, for old content `"a\nb\nc\n"` and new content `"a\nB\nc\nd\n"`,
the diff reports 3 changed lines (remove `b`, add `B`; add `d`) with
`hasChanges = true`. -/
theorem computeDiff_linesChanged_adds_plus_removes :
    (∀ oldC newC fp : String,
      (computeDiff oldC newC fp).linesChanged
        = countKind DiffKind.add (rawStateOf oldC newC).lines
          + countKind DiffKind.remove (rawStateOf oldC newC).lines)
    ∧ (computeDiff "a\nb\nc\n" "a\nB\nc\nd\n" "f").linesChanged = 3
    ∧ (computeDiff "a\nb\nc\n" "a\nB\nc\nd\n" "f").hasChanges = true := by
  refine ⟨fun oldC newC fp => ?_, rfl, rfl⟩
  rw [computeDiff_linesChanged_raw]
  exact buildRaw_inv _ _ _

/-- C3: applying the hunks of `computeDiff`'s unified diff to the old content
does not reproduce the new content. With changes on lines 1 and 8 separated by
six unchanged lines, both changes land in one hunk, but the kept lines
`c2`, `c3`, `c4` (more than 3 positions after the first change, less than the
hunk-merge gap) are omitted from the hunk's entries, so replaying the hunk
over the old lines drops them and matches neither the old segment it claims
nor the new content. -/
theorem computeDiff_hunks_not_roundtrip :
    applyHunks (computeHunks "a\nx\nc0\nc1\nc2\nc3\nc4\nb\nt" "A\nx\nc0\nc1\nc2\nc3\nc4\nB\nt")
        (splitLines "a\nx\nc0\nc1\nc2\nc3\nc4\nb\nt")
      = ["A", "x", "c0", "c1", "B", "t", "c4", "b", "t"]
    ∧ applyHunks (computeHunks "a\nx\nc0\nc1\nc2\nc3\nc4\nb\nt" "A\nx\nc0\nc1\nc2\nc3\nc4\nB\nt")
        (splitLines "a\nx\nc0\nc1\nc2\nc3\nc4\nb\nt")
      ≠ splitLines "A\nx\nc0\nc1\nc2\nc3\nc4\nB\nt" := by
  constructor
  · rfl
  · decide

/-- C1: a range read by a session whose pointer is stale, with the old
revision stored, is not reconciled against the diff's changed-line set.
File `"f"` changed on lines 1 and 8 only; the requested range 4-5 contains no
changed line, yet `readFile` returns the raw slice `"4\n5"` with
`linesChanged = 4` instead of the claimed changes-elsewhere confirmation with
`linesChanged = 0`; and for the range 1-2, which does contain changed line 1,
it returns the slice with `cached = true` instead of the claimed
`cached = false`. -/
theorem readFile_range_read_ignores_intersection :
    ((readFile id (fun _ => false) 100 exC1Fs exC1Db
        ⟨"s", "main", "f", { offset := some 4, limit := some 2 }⟩).map
      fun x => (x.1.cached, x.1.content, x.1.linesChanged))
      = some (true, "4\n5", some 4)
    ∧ (∀ l ∈ (computeDiff exC1Old exC1New "f").changedNewLines, l < 4 ∨ 5 < l)
    ∧ ((readFile id (fun _ => false) 100 exC1Fs exC1Db
        ⟨"s", "main", "f", { offset := some 1, limit := some 2 }⟩).map
      fun x => (x.1.cached, x.1.content, x.1.linesChanged))
      = some (true, "1x\n2", some 4) := by
  refine ⟨rfl, by decide, rfl⟩

/-- C9: revision writes are idempotent and content-addressed — an
`INSERT OR IGNORE` whose `(path, hash)` key is already present is a no-op
(whatever payload it carries), and writing under one key twice leaves exactly
one row for that key (one more than zero, none more than any already there). -/
theorem insertVersion_idempotent_content_addressed :
    ∀ (db : Db) (p hsh c c' : String) (n n' t t' : Nat),
      insertOrIgnoreVersion (insertOrIgnoreVersion db ⟨p, hsh, c, n, t⟩) ⟨p, hsh, c', n', t'⟩
        = insertOrIgnoreVersion db ⟨p, hsh, c, n, t⟩
      ∧ versionKeyCount
          (insertOrIgnoreVersion (insertOrIgnoreVersion db ⟨p, hsh, c, n, t⟩) ⟨p, hsh, c', n', t'⟩)
          p hsh
        = max (versionKeyCount db p hsh) 1 := by
  intro db p hsh c c' n n' t t'
  by_cases h1 : db.fileVersions.any (fun x => x.path == p && x.hash == hsh)
  · have hfirst : insertOrIgnoreVersion db ⟨p, hsh, c, n, t⟩ = db := by
      simp [insertOrIgnoreVersion, h1]
    rw [hfirst]
    have hsecond : insertOrIgnoreVersion db ⟨p, hsh, c', n', t'⟩ = db := by
      simp [insertOrIgnoreVersion, h1]
    rw [hsecond]
    refine ⟨rfl, ?_⟩
    obtain ⟨x, hx, hpx⟩ := List.any_eq_true.mp h1
    have hxf : x ∈ db.fileVersions.filter (fun r => r.path == p && r.hash == hsh) :=
      List.mem_filter.mpr ⟨hx, hpx⟩
    have hpos : 0 < versionKeyCount db p hsh := by
      unfold versionKeyCount
      exact List.length_pos.mpr (fun hnil => by simp [hnil] at hxf)
    omega
  · have hfirst : insertOrIgnoreVersion db ⟨p, hsh, c, n, t⟩
        = { db with fileVersions := ⟨p, hsh, c, n, t⟩ :: db.fileVersions } := by
      simp [insertOrIgnoreVersion, h1]
    have hzero : versionKeyCount db p hsh = 0 := by
      unfold versionKeyCount
      have hall : ∀ a ∈ db.fileVersions, ¬((a.path == p && a.hash == hsh) = true) := by
        intro a ha hc
        exact h1 (List.any_eq_true.mpr ⟨a, ha, hc⟩)
      simp [List.filter_eq_nil_iff.mpr hall]
    rw [hfirst]
    have hsecond : insertOrIgnoreVersion
        { db with fileVersions := ⟨p, hsh, c, n, t⟩ :: db.fileVersions } ⟨p, hsh, c', n', t'⟩
        = { db with fileVersions := ⟨p, hsh, c, n, t⟩ :: db.fileVersions } := by
      simp [insertOrIgnoreVersion]
    rw [hsecond]
    refine ⟨rfl, ?_⟩
    unfold versionKeyCount at hzero ⊢
    simp only [List.filter_cons, beq_self_eq_true, Bool.and_self, if_true, List.length_cons, hzero]
    omega

/-! ## Frame and preservation lemmas for the store operations -/

theorem insertEvent_frame (db : Db) (e : EventRow) :
    (insertEvent db e).fileVersions = db.fileVersions
    ∧ (insertEvent db e).sessionReads = db.sessionReads
    ∧ (insertEvent db e).fileMtimes = db.fileMtimes :=
  ⟨rfl, rfl, rfl⟩

theorem addMetrics_frame (db : Db) (s b tool : String) (o a : Nat) :
    (addMetrics db s b tool o a).fileVersions = db.fileVersions
    ∧ (addMetrics db s b tool o a).sessionReads = db.sessionReads
    ∧ (addMetrics db s b tool o a).fileMtimes = db.fileMtimes
    ∧ (addMetrics db s b tool o a).sessionEvents = db.sessionEvents := by
  by_cases hs : o - a > 0 <;> simp [addMetrics, hs]

theorem insertOrIgnoreVersion_frame (db : Db) (r : VersionRow) :
    (insertOrIgnoreVersion db r).sessionReads = db.sessionReads
    ∧ (insertOrIgnoreVersion db r).fileMtimes = db.fileMtimes
    ∧ (insertOrIgnoreVersion db r).sessionEvents = db.sessionEvents
    ∧ (insertOrIgnoreVersion db r).sessionMetrics = db.sessionMetrics := by
  unfold insertOrIgnoreVersion
  split <;> exact ⟨rfl, rfl, rfl, rfl⟩

theorem updateReadAt_frame (db : Db) (s b p : String) (t : Nat) :
    (updateReadAt db s b p t).fileVersions = db.fileVersions
    ∧ (updateReadAt db s b p t).fileMtimes = db.fileMtimes :=
  ⟨rfl, rfl⟩

theorem updateReadHash_frame (db : Db) (s b p hh : String) (t : Nat) :
    (updateReadHash db s b p hh t).fileVersions = db.fileVersions
    ∧ (updateReadHash db s b p hh t).fileMtimes = db.fileMtimes :=
  ⟨rfl, rfl⟩

theorem insertOrReplaceRead_frame (db : Db) (r : ReadRow) :
    (insertOrReplaceRead db r).fileVersions = db.fileVersions
    ∧ (insertOrReplaceRead db r).fileMtimes = db.fileMtimes :=
  ⟨rfl, rfl⟩

theorem insertOrReplaceMtime_frame (db : Db) (m : MtimeRow) :
    (insertOrReplaceMtime db m).fileVersions = db.fileVersions
    ∧ (insertOrReplaceMtime db m).sessionReads = db.sessionReads
    ∧ (insertOrReplaceMtime db m).sessionEvents = db.sessionEvents
    ∧ (insertOrReplaceMtime db m).sessionMetrics = db.sessionMetrics :=
  ⟨rfl, rfl, rfl, rfl⟩

theorem wf_of_fields (h : String → String) (fs : String → Option FsEntry) (db db' : Db)
    (h1 : db'.fileVersions = db.fileVersions) (h2 : db'.fileMtimes = db.fileMtimes)
    (hw : wfDb h fs db) : wfDb h fs db' := by
  unfold wfDb at hw ⊢
  rw [h1, h2]
  exact hw

theorem wf_insertOrIgnoreVersion (h : String → String) (fs : String → Option FsEntry)
    (db : Db) (r : VersionRow) (hw : wfDb h fs db)
    (hr : r.hash = h r.content) (hn : r.lines = countLines r.content) :
    wfDb h fs (insertOrIgnoreVersion db r) := by
  unfold insertOrIgnoreVersion
  split
  · exact hw
  · obtain ⟨w1, w2⟩ := hw
    exact ⟨fun v hv => by
        rcases List.mem_cons.mp hv with hveq | hvm
        · subst hveq; exact ⟨hr, hn⟩
        · exact w1 v hvm,
      w2⟩

theorem wf_insertOrReplaceMtime (h : String → String) (fs : String → Option FsEntry)
    (db : Db) (m : MtimeRow) (hw : wfDb h fs db)
    (hm : match fs m.path with
      | some fe => m.mtimeMs = fe.mtimeMs → m.hash = h fe.content
      | none => True) :
    wfDb h fs (insertOrReplaceMtime db m) := by
  obtain ⟨w1, w2⟩ := hw
  refine ⟨w1, fun m' hm' => ?_⟩
  rcases List.mem_cons.mp hm' with hmeq | hmm
  · subst hmeq; exact hm
  · exact w2 m' (List.mem_of_mem_filter hmm)

theorem noPointer_of_sessionReads_eq (db db' : Db) (s b p : String)
    (heq : db'.sessionReads = db.sessionReads) (hnp : noPointer db s b p) :
    noPointer db' s b p := by
  unfold noPointer at hnp ⊢
  rw [heq]
  exact hnp

theorem noPointer_updateReadAt (db : Db) (s' b' p' : String) (t : Nat) (s b p : String)
    (hnp : noPointer db s b p) : noPointer (updateReadAt db s' b' p' t) s b p := by
  intro r hr
  simp only [updateReadAt, List.mem_map] at hr
  obtain ⟨r0, hr0, rfl⟩ := hr
  have := hnp r0 hr0
  split <;> simpa using this

theorem noPointer_updateReadHash (db : Db) (s' b' p' hh : String) (t : Nat) (s b p : String)
    (hnp : noPointer db s b p) : noPointer (updateReadHash db s' b' p' hh t) s b p := by
  intro r hr
  simp only [updateReadHash, List.mem_map] at hr
  obtain ⟨r0, hr0, rfl⟩ := hr
  have := hnp r0 hr0
  split <;> simpa using this

theorem noPointer_insertOrReplaceRead (db : Db) (r0 : ReadRow) (s b p : String)
    (hne : ¬(r0.sessionId = s ∧ r0.branch = b ∧ r0.path = p))
    (hnp : noPointer db s b p) : noPointer (insertOrReplaceRead db r0) s b p := by
  intro r hr
  rcases List.mem_cons.mp hr with hreq | hrm
  · subst hreq; exact hne
  · exact hnp r (List.mem_of_mem_filter hrm)

theorem noPointer_selectReads (db : Db) (s b p : String) (hnp : noPointer db s b p) :
    selectReads db s b p = [] := by
  unfold selectReads
  refine List.filter_eq_nil_iff.mpr fun r hr => ?_
  have := hnp r hr
  simp only [Bool.and_eq_true, beq_iff_eq]
  exact fun hc => this ⟨hc.1.1, hc.1.2, hc.2⟩

theorem selectReads_eq_of_sessionReads_eq (db db' : Db) (s b p : String)
    (heq : db'.sessionReads = db.sessionReads) :
    selectReads db' s b p = selectReads db s b p := by
  unfold selectReads
  rw [heq]

theorem selectReads_insertOrReplaceRead_self (db : Db) (r : ReadRow) :
    selectReads (insertOrReplaceRead db r) r.sessionId r.branch r.path = [r] := by
  unfold selectReads insertOrReplaceRead
  simp only [List.filter_cons, beq_self_eq_true, Bool.and_self, if_true]
  congr 1
  refine List.filter_eq_nil_iff.mpr fun x hx => ?_
  have hxm := List.mem_filter.mp hx
  intro hc
  have h2 := hxm.2
  rw [hc] at h2
  simp at h2

theorem filterKey_map_setReadAt (rows : List ReadRow) (s b p : String) (t : Nat) :
    ((rows.map fun r =>
        if r.sessionId == s && r.branch == b && r.path == p then { r with readAt := t } else r).filter
      fun r => r.sessionId == s && r.branch == b && r.path == p)
      = (rows.filter fun r => r.sessionId == s && r.branch == b && r.path == p).map
          fun r => { r with readAt := t } := by
  induction rows with
  | nil => rfl
  | cons r rows ih =>
    by_cases hp : (r.sessionId = s ∧ r.branch = b) ∧ r.path = p
    · simp only [List.map_cons, List.filter_cons]
      simp [hp]
      simpa using ih
    · simp only [List.map_cons, List.filter_cons]
      simp [hp]
      simpa using ih

theorem selectReads_updateReadAt (db : Db) (s b p : String) (t : Nat) :
    selectReads (updateReadAt db s b p t) s b p
      = (selectReads db s b p).map fun r => { r with readAt := t } :=
  filterKey_map_setReadAt db.sessionReads s b p t

/-- The mtime fast-path always hands the session logic a hash and line count
that belong to the content it returns (regardless of which branch served it). -/
theorem resolveCurrent_hashContent (h : String → String) (fs : String → Option FsEntry)
    (db : Db) (p : String) (fe : FsEntry) (hw : wfDb h fs db) :
    (resolveCurrent h db p fe).hash = h (resolveCurrent h db p fe).content
    ∧ (resolveCurrent h db p fe).lines = countLines (resolveCurrent h db p fe).content := by
  unfold resolveCurrent
  cases hm : selectMtime db p fe.mtimeMs with
  | none => exact ⟨rfl, rfl⟩
  | some row =>
    dsimp only
    cases hv : selectVersion db p row.hash with
    | none => exact ⟨rfl, rfl⟩
    | some v =>
      have hvm := List.mem_of_find?_eq_some hv
      have hvp := List.find?_some hv
      simp only [Bool.and_eq_true, beq_iff_eq] at hvp
      have := hw.1 v hvm
      exact ⟨by simp [hvp.2 ▸ this.1], by simp [this.2]⟩

theorem resolveCurrent_frame (h : String → String) (db : Db) (p : String) (fe : FsEntry) :
    (resolveCurrent h db p fe).db.fileVersions = db.fileVersions
    ∧ (resolveCurrent h db p fe).db.sessionReads = db.sessionReads
    ∧ (resolveCurrent h db p fe).db.sessionEvents = db.sessionEvents
    ∧ (resolveCurrent h db p fe).db.sessionMetrics = db.sessionMetrics := by
  unfold resolveCurrent
  cases selectMtime db p fe.mtimeMs with
  | none => exact ⟨rfl, rfl, rfl, rfl⟩
  | some row =>
    dsimp only
    cases selectVersion db p row.hash with
    | none => exact ⟨rfl, rfl, rfl, rfl⟩
    | some v => exact ⟨rfl, rfl, rfl, rfl⟩

theorem resolveCurrent_wf (h : String → String) (fs : String → Option FsEntry)
    (db : Db) (p : String) (fe : FsEntry) (hw : wfDb h fs db) (hfe : fs p = some fe) :
    wfDb h fs (resolveCurrent h db p fe).db := by
  unfold resolveCurrent
  cases selectMtime db p fe.mtimeMs with
  | none =>
    exact wf_insertOrReplaceMtime h fs db _ hw (by rw [hfe]; exact fun _ => rfl)
  | some row =>
    dsimp only
    cases selectVersion db p row.hash with
    | none => exact wf_insertOrReplaceMtime h fs db _ hw (by rw [hfe]; exact fun _ => rfl)
    | some v => exact hw

/-- Under a well-formed store and an injective hash, the mtime fast-path
resolves exactly the file's current content, its hash and its line count —
whether it was served from the stored revision or from the disk read. -/
theorem resolveCurrent_content (h : String → String) (fs : String → Option FsEntry)
    (db : Db) (p : String) (fe : FsEntry) (hw : wfDb h fs db)
    (hinj : Function.Injective h) (hfe : fs p = some fe) :
    (resolveCurrent h db p fe).content = fe.content
    ∧ (resolveCurrent h db p fe).hash = h fe.content
    ∧ (resolveCurrent h db p fe).lines = countLines fe.content := by
  unfold resolveCurrent
  cases hm : selectMtime db p fe.mtimeMs with
  | none => exact ⟨rfl, rfl, rfl⟩
  | some row =>
    have hrm := List.mem_of_find?_eq_some hm
    have hrp := List.find?_some hm
    simp only [Bool.and_eq_true, beq_iff_eq] at hrp
    have hrow : row.hash = h fe.content := by
      have := hw.2 row hrm
      rw [hrp.1, hfe] at this
      exact this hrp.2
    dsimp only
    cases hv : selectVersion db p row.hash with
    | none => exact ⟨rfl, rfl, rfl⟩
    | some v =>
      have hvm := List.mem_of_find?_eq_some hv
      have hvp := List.find?_some hv
      simp only [Bool.and_eq_true, beq_iff_eq] at hvp
      have hwv := hw.1 v hvm
      have hvc : v.content = fe.content := by
        apply hinj
        rw [← hwv.1, hvp.2, hrow]
      dsimp only
      exact ⟨hvc, hrow, by rw [hwv.2, hvc]⟩

theorem wf_insertEvent (h : String → String) (fs : String → Option FsEntry)
    (db : Db) (e : EventRow) (hw : wfDb h fs db) : wfDb h fs (insertEvent db e) :=
  wf_of_fields h fs db _ rfl rfl hw

theorem wf_addMetrics (h : String → String) (fs : String → Option FsEntry)
    (db : Db) (s b tool : String) (o a : Nat) (hw : wfDb h fs db) :
    wfDb h fs (addMetrics db s b tool o a) :=
  wf_of_fields h fs db (addMetrics db s b tool o a)
    (addMetrics_frame db s b tool o a).1 (addMetrics_frame db s b tool o a).2.2.1 hw

theorem wf_updateReadAt (h : String → String) (fs : String → Option FsEntry)
    (db : Db) (s b p : String) (t : Nat) (hw : wfDb h fs db) :
    wfDb h fs (updateReadAt db s b p t) :=
  wf_of_fields h fs db _ rfl rfl hw

theorem wf_updateReadHash (h : String → String) (fs : String → Option FsEntry)
    (db : Db) (s b p hh : String) (t : Nat) (hw : wfDb h fs db) :
    wfDb h fs (updateReadHash db s b p hh t) :=
  wf_of_fields h fs db _ rfl rfl hw

theorem wf_insertOrReplaceRead (h : String → String) (fs : String → Option FsEntry)
    (db : Db) (r : ReadRow) (hw : wfDb h fs db) : wfDb h fs (insertOrReplaceRead db r) :=
  wf_of_fields h fs db _ rfl rfl hw

theorem noPointer_insertEvent (db : Db) (e : EventRow) (s b p : String)
    (hnp : noPointer db s b p) : noPointer (insertEvent db e) s b p :=
  noPointer_of_sessionReads_eq db _ s b p rfl hnp

theorem noPointer_addMetrics (db : Db) (s' b' tool : String) (o a : Nat) (s b p : String)
    (hnp : noPointer db s b p) : noPointer (addMetrics db s' b' tool o a) s b p :=
  noPointer_of_sessionReads_eq db (addMetrics db s' b' tool o a) s b p
    (addMetrics_frame db s' b' tool o a).2.1 hnp

theorem noPointer_insertOrIgnoreVersion (db : Db) (r : VersionRow) (s b p : String)
    (hnp : noPointer db s b p) : noPointer (insertOrIgnoreVersion db r) s b p :=
  noPointer_of_sessionReads_eq db (insertOrIgnoreVersion db r) s b p
    (insertOrIgnoreVersion_frame db r).1 hnp

theorem noPointer_insertOrReplaceMtime (db : Db) (m : MtimeRow) (s b p : String)
    (hnp : noPointer db s b p) : noPointer (insertOrReplaceMtime db m) s b p :=
  noPointer_of_sessionReads_eq db _ s b p rfl hnp

theorem readFileTail_wf (h : String → String) (fs : String → Option FsEntry)
    (now : Nat) (req : Request) (c hsh : String) (n : Nat) (db : Db) (orig : Nat)
    (hw : wfDb h fs db) (hh : hsh = h c) (hn : n = countLines c) :
    wfDb h fs (readFileTail now req c hsh n db orig).2 := by
  unfold readFileTail
  dsimp only
  apply wf_insertOrReplaceRead
  apply wf_insertOrIgnoreVersion h fs _ ⟨req.path, hsh, c, n, now⟩ _ hh hn
  apply wf_addMetrics
  apply wf_insertEvent
  exact hw

theorem readFileTail_noPointer (now : Nat) (req : Request) (c hsh : String) (n : Nat)
    (db : Db) (orig : Nat) (s b p : String) (hne : req.sessionId ≠ s)
    (hnp : noPointer db s b p) :
    noPointer (readFileTail now req c hsh n db orig).2 s b p := by
  unfold readFileTail
  dsimp only
  apply noPointer_insertOrReplaceRead
  · exact fun hc => hne hc.1
  · apply noPointer_insertOrIgnoreVersion
    apply noPointer_addMetrics
    apply noPointer_insertEvent
    exact hnp

theorem readFileCore_wf (h : String → String) (fs : String → Option FsEntry)
    (now : Nat) (req : Request) (rv : Resolved) (hw : wfDb h fs rv.db)
    (hh : rv.hash = h rv.content) (hn : rv.lines = countLines rv.content) :
    wfDb h fs (readFileCore now req rv).2 := by
  unfold readFileCore
  dsimp only
  cases hsel : selectReads rv.db req.sessionId req.branch req.path with
  | nil =>
    dsimp only
    exact readFileTail_wf h fs now req rv.content rv.hash rv.lines rv.db _ hw hh hn
  | cons lastRow rest =>
    dsimp only
    by_cases heq : (lastRow.hash == rv.hash) = true
    · rw [if_pos heq]
      apply wf_updateReadAt
      apply wf_addMetrics
      apply wf_insertEvent
      exact hw
    · rw [if_neg heq]
      have hw3 : wfDb h fs (updateReadHash
          (insertOrIgnoreVersion
            (insertEvent rv.db ⟨req.sessionId, req.branch, "write", req.path, rv.hash, now⟩)
            ⟨req.path, rv.hash, rv.content, rv.lines, now⟩)
          req.sessionId req.branch req.path rv.hash now) := by
        apply wf_updateReadHash
        apply wf_insertOrIgnoreVersion h fs _ ⟨req.path, rv.hash, rv.content, rv.lines, now⟩ _ hh hn
        apply wf_insertEvent
        exact hw
      cases hov : selectVersion rv.db req.path lastRow.hash with
      | none =>
        dsimp only
        exact readFileTail_wf h fs now req rv.content rv.hash rv.lines _ _ hw3 hh hn
      | some ov =>
        dsimp only
        by_cases hch : (computeDiff ov.content rv.content req.path).hasChanges = true
        · rw [if_pos hch]
          apply wf_addMetrics
          exact hw3
        · rw [if_neg hch]
          exact readFileTail_wf h fs now req rv.content rv.hash rv.lines _ _ hw3 hh hn

theorem readFileCore_noPointer (now : Nat) (req : Request) (rv : Resolved)
    (s b p : String) (hne : req.sessionId ≠ s) (hnp : noPointer rv.db s b p) :
    noPointer (readFileCore now req rv).2 s b p := by
  unfold readFileCore
  dsimp only
  cases hsel : selectReads rv.db req.sessionId req.branch req.path with
  | nil =>
    dsimp only
    exact readFileTail_noPointer now req _ _ _ _ _ s b p hne hnp
  | cons lastRow rest =>
    dsimp only
    by_cases heq : (lastRow.hash == rv.hash) = true
    · rw [if_pos heq]
      apply noPointer_updateReadAt
      apply noPointer_addMetrics
      apply noPointer_insertEvent
      exact hnp
    · rw [if_neg heq]
      have hnp3 : noPointer (updateReadHash
          (insertOrIgnoreVersion
            (insertEvent rv.db ⟨req.sessionId, req.branch, "write", req.path, rv.hash, now⟩)
            ⟨req.path, rv.hash, rv.content, rv.lines, now⟩)
          req.sessionId req.branch req.path rv.hash now) s b p := by
        apply noPointer_updateReadHash
        apply noPointer_insertOrIgnoreVersion
        apply noPointer_insertEvent
        exact hnp
      cases hov : selectVersion rv.db req.path lastRow.hash with
      | none =>
        dsimp only
        exact readFileTail_noPointer now req _ _ _ _ _ s b p hne hnp3
      | some ov =>
        dsimp only
        by_cases hch : (computeDiff ov.content rv.content req.path).hasChanges = true
        · rw [if_pos hch]
          apply noPointer_addMetrics
          exact hnp3
        · rw [if_neg hch]
          exact readFileTail_noPointer now req _ _ _ _ _ s b p hne hnp3

/-- A read by a session with no stored pointer for `(s, b, p)`: full (or
sliced) current content, uncached, revision persisted and pointer created
(cache.ts step at lines 457-462). -/
theorem readFile_firstRead_spec (h : String → String) (ign : String → Bool) (now : Nat)
    (fs : String → Option FsEntry) (db : Db) (s b p : String) (o : ReadOptions) (fe : FsEntry)
    (hinj : Function.Injective h) (hw : wfDb h fs db) (hfe : fs p = some fe)
    (hnign : ign p = false) (hnp : noPointer db s b p) :
    match readFile h ign now fs db ⟨s, b, p, o⟩ with
    | none => False
    | some (res, db') =>
        res = ⟨false, if isPartialReq o then sliceLines o fe.content else fe.content,
          none, none, countLines fe.content, h fe.content⟩
        ∧ wfDb h fs db'
        ∧ selectReads db' s b p = [⟨s, b, p, h fe.content, now⟩] := by
  have hrc := resolveCurrent_content h fs db p fe hw hinj hfe
  have hhc := resolveCurrent_hashContent h fs db p fe hw
  have hrf := resolveCurrent_frame h db p fe
  have hrw := resolveCurrent_wf h fs db p fe hw hfe
  unfold readFile
  dsimp only
  rw [hfe]
  dsimp only
  rw [if_neg (by rw [hnign]; exact Bool.false_ne_true)]
  have hsel : selectReads (resolveCurrent h db p fe).db s b p = [] := by
    rw [selectReads_eq_of_sessionReads_eq db _ s b p hrf.2.1]
    exact noPointer_selectReads db s b p hnp
  unfold readFileCore
  dsimp only
  rw [hsel]
  dsimp only
  unfold readFileTail
  dsimp only
  refine ⟨?_, ?_, ?_⟩
  · rw [hrc.1, hrc.2.1, hrc.2.2]
  · apply wf_insertOrReplaceRead
    apply wf_insertOrIgnoreVersion h fs _ _ _ hhc.1 hhc.2
    apply wf_addMetrics
    apply wf_insertEvent
    exact hrw
  · rw [hrc.2.1]
    exact selectReads_insertOrReplaceRead_self _ ⟨s, b, p, h fe.content, now⟩

/-- A read by a session whose stored pointer hash equals the current content
hash: the UNCHANGED branch (cache.ts lines 426-434) returns the confirmation
label with `linesChanged = 0` and refreshes only the pointer's timestamp. -/
theorem readFile_unchanged_spec (h : String → String) (ign : String → Bool) (now : Nat)
    (fs : String → Option FsEntry) (db : Db) (s b p : String) (o : ReadOptions) (fe : FsEntry)
    (row : ReadRow) (rest : List ReadRow)
    (hinj : Function.Injective h) (hw : wfDb h fs db) (hfe : fs p = some fe)
    (hnign : ign p = false) (hsel : selectReads db s b p = row :: rest)
    (hrh : row.hash = h fe.content) :
    match readFile h ign now fs db ⟨s, b, p, o⟩ with
    | none => False
    | some (res, db') =>
        res = ⟨true,
          unchangedLabel o (countLines fe.content)
            (estimateTokens (if isPartialReq o then sliceLines o fe.content else fe.content)),
          none, some 0, countLines fe.content, h fe.content⟩
        ∧ wfDb h fs db'
        ∧ selectReads db' s b p = (row :: rest).map fun r => { r with readAt := now } := by
  have hrc := resolveCurrent_content h fs db p fe hw hinj hfe
  have hrf := resolveCurrent_frame h db p fe
  have hrw := resolveCurrent_wf h fs db p fe hw hfe
  unfold readFile
  dsimp only
  rw [hfe]
  dsimp only
  rw [if_neg (by rw [hnign]; exact Bool.false_ne_true)]
  have hsel' : selectReads (resolveCurrent h db p fe).db s b p = row :: rest := by
    rw [selectReads_eq_of_sessionReads_eq db _ s b p hrf.2.1]
    exact hsel
  unfold readFileCore
  dsimp only
  rw [hsel']
  dsimp only
  rw [if_pos (by rw [hrh, hrc.2.1]; exact beq_self_eq_true _)]
  refine ⟨?_, ?_, ?_⟩
  · rw [hrc.1, hrc.2.1, hrc.2.2]
  · apply wf_updateReadAt
    apply wf_addMetrics
    apply wf_insertEvent
    exact hrw
  · rw [selectReads_updateReadAt]
    congr 1
    rw [selectReads_eq_of_sessionReads_eq (insertEvent (resolveCurrent h db p fe).db
        ⟨s, b, "read", p, (resolveCurrent h db p fe).hash, now⟩) _ s b p
      ((addMetrics_frame _ _ _ _ _ _).2.1)]
    exact hsel'

theorem selectVersion_congr (db db' : Db) (p hsh : String)
    (heq : db'.fileVersions = db.fileVersions) :
    selectVersion db' p hsh = selectVersion db p hsh := by
  unfold selectVersion
  rw [heq]

theorem insertOrIgnoreVersion_noop_of_found (db : Db) (r v : VersionRow)
    (hv : selectVersion db r.path r.hash = some v) : insertOrIgnoreVersion db r = db := by
  have hv' : db.fileVersions.find? (fun x => x.path == r.path && x.hash == r.hash) = some v := hv
  have hmem := List.mem_of_find?_eq_some hv'
  have hpred := List.find?_some hv'
  unfold insertOrIgnoreVersion
  rw [if_pos]
  exact List.any_eq_true.mpr ⟨v, hmem, hpred⟩

theorem selectVersion_insertOrIgnore_found (h : String → String) (fs : String → Option FsEntry)
    (db : Db) (r : VersionRow) (hinj : Function.Injective h) (hw : wfDb h fs db)
    (hr : r.hash = h r.content) (hn : r.lines = countLines r.content) :
    ∃ v, selectVersion (insertOrIgnoreVersion db r) r.path r.hash = some v
      ∧ v.content = r.content ∧ v.lines = countLines r.content := by
  unfold selectVersion insertOrIgnoreVersion
  by_cases h1 : db.fileVersions.any (fun x => x.path == r.path && x.hash == r.hash) = true
  · rw [if_pos h1]
    obtain ⟨x, hx, hpx⟩ := List.any_eq_true.mp h1
    cases hf : db.fileVersions.find? (fun x => x.path == r.path && x.hash == r.hash) with
    | none =>
      exact absurd hpx (List.find?_eq_none.mp hf x hx)
    | some v =>
      have hvm := List.mem_of_find?_eq_some hf
      have hvp := List.find?_some hf
      simp only [Bool.and_eq_true, beq_iff_eq] at hvp
      have hwv := hw.1 v hvm
      have hvc : v.content = r.content := by
        apply hinj
        rw [← hwv.1, hvp.2, hr]
      exact ⟨v, rfl, hvc, by rw [hwv.2, hvc]⟩
  · rw [if_neg h1]
    refine ⟨r, ?_, rfl, hn⟩
    dsimp only
    rw [List.find?_cons_of_pos _ (by simp)]

/-- C8: a read by a session whose pointer is stale (hash differs from the
current content hash) and whose old revision is missing from the store (for
example pruned) degrades silently to first-read behavior (cache.ts lines
436-440 followed by 457-462): it returns the full (possibly range-sliced)
current content with `cached = false` and no diff, persists the new revision,
advances the pointer, and raises no error. -/
theorem readFile_staleMissing_spec (h : String → String) (ign : String → Bool) (now : Nat)
    (fs : String → Option FsEntry) (db : Db) (s b p : String) (o : ReadOptions) (fe : FsEntry)
    (row : ReadRow) (rest : List ReadRow)
    (hinj : Function.Injective h) (hw : wfDb h fs db) (hfe : fs p = some fe)
    (hnign : ign p = false) (hsel : selectReads db s b p = row :: rest)
    (hne : row.hash ≠ h fe.content) (hmiss : selectVersion db p row.hash = none) :
    match readFile h ign now fs db ⟨s, b, p, o⟩ with
    | none => False
    | some (res, db') =>
        res = ⟨false, if isPartialReq o then sliceLines o fe.content else fe.content,
          none, none, countLines fe.content, h fe.content⟩
        ∧ wfDb h fs db'
        ∧ (∃ v, selectVersion db' p (h fe.content) = some v
            ∧ v.content = fe.content ∧ v.lines = countLines fe.content)
        ∧ selectReads db' s b p = [⟨s, b, p, h fe.content, now⟩] := by
  have hrc := resolveCurrent_content h fs db p fe hw hinj hfe
  have hhc := resolveCurrent_hashContent h fs db p fe hw
  have hrf := resolveCurrent_frame h db p fe
  have hrw := resolveCurrent_wf h fs db p fe hw hfe
  unfold readFile
  dsimp only
  rw [hfe]
  dsimp only
  rw [if_neg (by rw [hnign]; exact Bool.false_ne_true)]
  have hsel' : selectReads (resolveCurrent h db p fe).db s b p = row :: rest := by
    rw [selectReads_eq_of_sessionReads_eq db _ s b p hrf.2.1]
    exact hsel
  unfold readFileCore
  dsimp only
  rw [hsel']
  dsimp only
  rw [if_neg (by rw [hrc.2.1]; simp only [beq_iff_eq]; exact hne)]
  have hmiss' : selectVersion (resolveCurrent h db p fe).db p row.hash = none := by
    rw [selectVersion_congr db _ p row.hash hrf.1]
    exact hmiss
  rw [hmiss']
  dsimp only
  unfold readFileTail
  dsimp only
  have hwX2 : wfDb h fs (insertOrIgnoreVersion
      (insertEvent (resolveCurrent h db p fe).db
        ⟨s, b, "write", p, (resolveCurrent h db p fe).hash, now⟩)
      ⟨p, (resolveCurrent h db p fe).hash, (resolveCurrent h db p fe).content,
        (resolveCurrent h db p fe).lines, now⟩) := by
    apply wf_insertOrIgnoreVersion h fs _ _ _ hhc.1 hhc.2
    apply wf_insertEvent
    exact hrw
  obtain ⟨v, hvsel, hvc, hvl⟩ := selectVersion_insertOrIgnore_found h fs
    (insertEvent (resolveCurrent h db p fe).db
      ⟨s, b, "write", p, (resolveCurrent h db p fe).hash, now⟩)
    ⟨p, (resolveCurrent h db p fe).hash, (resolveCurrent h db p fe).content,
      (resolveCurrent h db p fe).lines, now⟩
    hinj (wf_insertEvent h fs _ _ hrw) hhc.1 hhc.2
  refine ⟨?_, ?_, ?_, ?_⟩
  · rw [hrc.1, hrc.2.1, hrc.2.2]
  · apply wf_insertOrReplaceRead
    apply wf_insertOrIgnoreVersion h fs _ _ _ hhc.1 hhc.2
    apply wf_addMetrics
    apply wf_insertEvent
    apply wf_updateReadHash
    exact hwX2
  · refine ⟨v, ?_, by rw [hvc, hrc.1], by rw [hvl, hrc.1]⟩
    have hfv1 : selectVersion (addMetrics
        (insertEvent (updateReadHash (insertOrIgnoreVersion
            (insertEvent (resolveCurrent h db p fe).db
              ⟨s, b, "write", p, (resolveCurrent h db p fe).hash, now⟩)
            ⟨p, (resolveCurrent h db p fe).hash, (resolveCurrent h db p fe).content,
              (resolveCurrent h db p fe).lines, now⟩)
          s b p (resolveCurrent h db p fe).hash now)
          ⟨s, b, "read", p, (resolveCurrent h db p fe).hash, now⟩)
        s b o.toolName
        (estimateTokens (if isPartialReq o then sliceLines o (resolveCurrent h db p fe).content
          else (resolveCurrent h db p fe).content))
        (estimateTokens (if isPartialReq o then sliceLines o (resolveCurrent h db p fe).content
          else (resolveCurrent h db p fe).content)))
        p (resolveCurrent h db p fe).hash = some v := by
      rw [selectVersion_congr (insertOrIgnoreVersion
          (insertEvent (resolveCurrent h db p fe).db
            ⟨s, b, "write", p, (resolveCurrent h db p fe).hash, now⟩)
          ⟨p, (resolveCurrent h db p fe).hash, (resolveCurrent h db p fe).content,
            (resolveCurrent h db p fe).lines, now⟩) _ p (resolveCurrent h db p fe).hash
        (by rw [(addMetrics_frame _ _ _ _ _ _).1]; rfl)]
      exact hvsel
    rw [selectVersion_congr _ _ p (h fe.content) (insertOrReplaceRead_frame _ _).1]
    rw [← hrc.2.1]
    rw [insertOrIgnoreVersion_noop_of_found _ _ v hfv1]
    exact hfv1
  · rw [hrc.2.1]
    exact selectReads_insertOrReplaceRead_self _ ⟨s, b, p, h fe.content, now⟩

/-- One step of `runReads` preserves store well-formedness, whatever the
request and whichever branch it takes. -/
theorem runReads_step_wf (h : String → String) (ign : String → Bool) (now : Nat)
    (fs : String → Option FsEntry) (db : Db) (req : Request) (hw : wfDb h fs db) :
    wfDb h fs (match readFile h ign now fs db req with
      | some (_, db') => db'
      | none => db) := by
  unfold readFile
  cases hfs : fs req.path with
  | none => exact hw
  | some fe =>
    dsimp only
    by_cases hig : ign req.path = true
    · rw [if_pos hig]
      dsimp only
      apply wf_addMetrics
      exact hw
    · rw [if_neg hig]
      dsimp only
      have hhc := resolveCurrent_hashContent h fs db req.path fe hw
      exact readFileCore_wf h fs now req _ (resolveCurrent_wf h fs db req.path fe hw hfs)
        hhc.1 hhc.2

/-- One step of `runReads` by a different session never creates a read
pointer for `(s, b, p)`. -/
theorem runReads_step_noPointer (h : String → String) (ign : String → Bool) (now : Nat)
    (fs : String → Option FsEntry) (db : Db) (req : Request) (s b p : String)
    (hne : req.sessionId ≠ s) (hnp : noPointer db s b p) :
    noPointer (match readFile h ign now fs db req with
      | some (_, db') => db'
      | none => db) s b p := by
  unfold readFile
  cases hfs : fs req.path with
  | none => exact hnp
  | some fe =>
    dsimp only
    by_cases hig : ign req.path = true
    · rw [if_pos hig]
      dsimp only
      apply noPointer_addMetrics
      exact hnp
    · rw [if_neg hig]
      dsimp only
      apply readFileCore_noPointer now req _ s b p hne
      exact noPointer_of_sessionReads_eq db _ s b p
        (resolveCurrent_frame h db req.path fe).2.1 hnp

/-- Any sequence of reads by other sessions preserves well-formedness and the
absence of session `s`'s pointer for `(s, b, p)`. -/
theorem runReads_preserves (h : String → String) (ign : String → Bool) (now : Nat)
    (fs : String → Option FsEntry) (s b p : String) (reqs : List Request) :
    ∀ db : Db, wfDb h fs db → noPointer db s b p →
      (∀ r ∈ reqs, r.sessionId ≠ s) →
      wfDb h fs (runReads h ign now fs db reqs)
        ∧ noPointer (runReads h ign now fs db reqs) s b p := by
  induction reqs with
  | nil => exact fun db hw hnp _ => ⟨hw, hnp⟩
  | cons req reqs ih =>
    intro db hw hnp hall
    have hstep := runReads_step_wf h ign now fs db req hw
    have hstepn := runReads_step_noPointer h ign now fs db req s b p
      (hall req (List.mem_cons_self req reqs)) hnp
    have hrw : runReads h ign now fs db (req :: reqs)
        = runReads h ign now fs (match readFile h ign now fs db req with
          | some (_, db') => db'
          | none => db) reqs := by
      unfold runReads
      rw [List.foldl_cons]
    rw [hrw]
    exact ih _ hstep hstepn fun r hr => hall r (List.mem_cons_of_mem req hr)

/-- The returned `FileReadResult` of the session logic depends only on the
resolved content, hash and line count and on the `session_reads` and
`file_versions` tables — not on the `file_mtimes` table. -/
theorem readFileCore_fst_congr (now : Nat) (req : Request) (rv rv' : Resolved)
    (hc : rv.content = rv'.content) (hh : rv.hash = rv'.hash) (hn : rv.lines = rv'.lines)
    (hsr : rv.db.sessionReads = rv'.db.sessionReads)
    (hfv : rv.db.fileVersions = rv'.db.fileVersions) :
    (readFileCore now req rv).1 = (readFileCore now req rv').1 := by
  have hsel : selectReads rv.db req.sessionId req.branch req.path
      = selectReads rv'.db req.sessionId req.branch req.path :=
    selectReads_eq_of_sessionReads_eq rv'.db rv.db req.sessionId req.branch req.path hsr
  have hsv : ∀ hh' : String, selectVersion rv.db req.path hh' = selectVersion rv'.db req.path hh' :=
    fun hh' => selectVersion_congr rv'.db rv.db req.path hh' hfv
  unfold readFileCore
  dsimp only
  rw [hsel, hc, hh, hn]
  simp only [hsv]
  cases selectReads rv'.db req.sessionId req.branch req.path with
  | nil =>
    dsimp only
    unfold readFileTail
    dsimp only
  | cons lastRow rest =>
    dsimp only
    by_cases heq2 : (lastRow.hash == rv'.hash) = true
    · rw [if_pos heq2, if_pos heq2]
    · rw [if_neg heq2, if_neg heq2]
      cases hov : selectVersion rv'.db req.path lastRow.hash with
      | none =>
        dsimp only
        unfold readFileTail
        dsimp only
      | some ov =>
        dsimp only
        by_cases hch : (computeDiff ov.content rv'.content req.path).hasChanges = true
        · rw [if_pos hch, if_pos hch]
        · rw [if_neg hch, if_neg hch]
          unfold readFileTail
          dsimp only

/-- C2: reading an unchanged readable file twice in one session (no prior
pointer, no intervening content change) yields `cached = false` with the
(possibly sliced) content on the first read, and on the second read
`cached = true`, `linesChanged = 0` and the short confirmation label stating
the line count (or requested range) and the estimated saving; the second read
keeps the pointer's hash and refreshes only its timestamp. -/
theorem readFile_idempotent_unchanged (h : String → String) (ign : String → Bool)
    (now1 now2 : Nat) (fs : String → Option FsEntry) (db : Db) (s b p : String)
    (o : ReadOptions) (fe : FsEntry)
    (hinj : Function.Injective h) (hw : wfDb h fs db) (hfe : fs p = some fe)
    (hnign : ign p = false) (hnp : noPointer db s b p) :
    match readFile h ign now1 fs db ⟨s, b, p, o⟩ with
    | none => False
    | some (r1, db1) =>
        r1.cached = false
        ∧ r1.content = (if isPartialReq o then sliceLines o fe.content else fe.content)
        ∧ match readFile h ign now2 fs db1 ⟨s, b, p, o⟩ with
          | none => False
          | some (r2, db2) =>
              r2.cached = true ∧ r2.linesChanged = some 0
              ∧ r2.content = unchangedLabel o (countLines fe.content)
                  (estimateTokens (if isPartialReq o then sliceLines o fe.content else fe.content))
              ∧ selectReads db2 s b p = [⟨s, b, p, h fe.content, now2⟩] := by
  have h1 := readFile_firstRead_spec h ign now1 fs db s b p o fe hinj hw hfe hnign hnp
  cases hr1 : readFile h ign now1 fs db ⟨s, b, p, o⟩ with
  | none => rw [hr1] at h1; exact h1
  | some x =>
    obtain ⟨r1, db1⟩ := x
    rw [hr1] at h1
    obtain ⟨hres, hw1, hsel1⟩ := h1
    dsimp only
    refine ⟨by rw [hres], by rw [hres], ?_⟩
    have h2 := readFile_unchanged_spec h ign now2 fs db1 s b p o fe
      ⟨s, b, p, h fe.content, now1⟩ [] hinj hw1 hfe hnign hsel1 rfl
    cases hr2 : readFile h ign now2 fs db1 ⟨s, b, p, o⟩ with
    | none => rw [hr2] at h2; exact h2
    | some y =>
      obtain ⟨r2, db2⟩ := y
      rw [hr2] at h2
      obtain ⟨hres2, hw2, hsel2⟩ := h2
      refine ⟨by rw [hres2], by rw [hres2], by rw [hres2], ?_⟩
      rw [hsel2]
      rfl

/-- C6: a session's readFile outcome is decided by its own read pointer only —
after any sequence of reads performed by other sessions (any branches, any
paths), a session with no pointer for the file still experiences a first
read: full content with `cached = false`. -/
theorem readFile_session_isolation (h : String → String) (ign : String → Bool)
    (now nowR : Nat) (fs : String → Option FsEntry) (s1 b p : String) (fe : FsEntry)
    (db : Db) (reqs : List Request)
    (hinj : Function.Injective h) (hw : wfDb h fs db) (hnp : noPointer db s1 b p)
    (hreqs : ∀ r ∈ reqs, r.sessionId ≠ s1)
    (hfe : fs p = some fe) (hnign : ign p = false) :
    match readFile h ign nowR fs (runReads h ign now fs db reqs) ⟨s1, b, p, {}⟩ with
    | none => False
    | some (res, _) =>
        res = ⟨false, fe.content, none, none, countLines fe.content, h fe.content⟩ := by
  obtain ⟨hw', hnp'⟩ := runReads_preserves h ign now fs s1 b p reqs db hw hnp hreqs
  have hspec := readFile_firstRead_spec h ign nowR fs _ s1 b p {} fe hinj hw' hfe hnign hnp'
  cases hr : readFile h ign nowR fs (runReads h ign now fs db reqs) ⟨s1, b, p, {}⟩ with
  | none => rw [hr] at hspec; exact hspec
  | some x =>
    obtain ⟨res, db'⟩ := x
    rw [hr] at hspec
    exact hspec.1

/-- C7: the mtime fast-path is strictly a performance optimization — for every
readFile request against a well-formed store, the returned result is the same
whatever the `file_mtimes` table holds (matching, stale, or absent entries);
a non-matching entry only changes which branch resolves the content, never
the output. -/
theorem readFile_mtime_result_invariant (h : String → String) (ign : String → Bool)
    (now : Nat) (fs : String → Option FsEntry) (db : Db) (req : Request)
    (M : List MtimeRow)
    (hinj : Function.Injective h) (hw : wfDb h fs db)
    (hwM : wfDb h fs { db with fileMtimes := M }) :
    (readFile h ign now fs { db with fileMtimes := M } req).map (fun x => x.1)
      = (readFile h ign now fs db req).map (fun x => x.1) := by
  unfold readFile
  cases hfs : fs req.path with
  | none => rfl
  | some fe =>
    dsimp only
    by_cases hig : ign req.path = true
    · rw [if_pos hig, if_pos hig]
      rfl
    · rw [if_neg hig, if_neg hig]
      simp only [Option.map_some']
      congr 1
      have hcM := resolveCurrent_content h fs { db with fileMtimes := M } req.path fe hwM hinj hfs
      have hc := resolveCurrent_content h fs db req.path fe hw hinj hfs
      have hfM := resolveCurrent_frame h { db with fileMtimes := M } req.path fe
      have hf := resolveCurrent_frame h db req.path fe
      exact readFileCore_fst_congr now req _ _
        (hcM.1.trans hc.1.symm) (hcM.2.1.trans hc.2.1.symm) (hcM.2.2.trans hc.2.2.symm)
        (hfM.2.1.trans hf.2.1.symm) (hfM.1.trans hf.1.symm)

/-- C10: a path matched by the ignore patterns bypasses the cache entirely —
`readFile` returns the current (possibly range-sliced) content read from disk
with `cached = false` and leaves the revisions, read-pointer and mtime tables
(and the event log) unchanged; only the usage-metrics table is updated. -/
theorem readFile_ignored_bypass (h : String → String) (ign : String → Bool) (now : Nat)
    (fs : String → Option FsEntry) (db : Db) (s b p : String) (o : ReadOptions) (fe : FsEntry)
    (hfe : fs p = some fe) (hig : ign p = true) :
    match readFile h ign now fs db ⟨s, b, p, o⟩ with
    | none => False
    | some (res, db') =>
        res = ⟨false, if isPartialReq o then sliceLines o fe.content else fe.content,
          none, none, countLines fe.content, h fe.content⟩
        ∧ db'.fileVersions = db.fileVersions
        ∧ db'.sessionReads = db.sessionReads
        ∧ db'.fileMtimes = db.fileMtimes
        ∧ db'.sessionEvents = db.sessionEvents
        ∧ db'.sessionMetrics = addMetricsRows db.sessionMetrics s b o.toolName
            (estimateTokens (if isPartialReq o then sliceLines o fe.content else fe.content))
            (estimateTokens (if isPartialReq o then sliceLines o fe.content else fe.content)) := by
  unfold readFile
  dsimp only
  rw [hfe]
  dsimp only
  rw [if_pos hig]
  dsimp only
  refine ⟨rfl, (addMetrics_frame _ _ _ _ _ _).1, (addMetrics_frame _ _ _ _ _ _).2.1,
    (addMetrics_frame _ _ _ _ _ _).2.2.1, (addMetrics_frame _ _ _ _ _ _).2.2.2, ?_⟩
  simp [addMetrics]

/-- Witness for C2 at a concrete input: fresh store, file `"f"` with three
lines, two consecutive reads by session `"s"`. -/
theorem readFile_idempotent_unchanged_witness :
    (Function.Injective (fun s : String => s)
      ∧ wfDb (fun s : String => s) witFs emptyDb
      ∧ witFs "f" = some ⟨"a\nb\nc", 7⟩
      ∧ (fun _ : String => false) "f" = false
      ∧ noPointer emptyDb "s" "main" "f")
    ∧ (match readFile (fun s : String => s) (fun _ => false) 1 witFs emptyDb
        ⟨"s", "main", "f", {}⟩ with
      | none => False
      | some (r1, db1) =>
          r1.cached = false
          ∧ r1.content = (if isPartialReq {} then sliceLines {} "a\nb\nc" else "a\nb\nc")
          ∧ match readFile (fun s : String => s) (fun _ => false) 2 witFs db1
              ⟨"s", "main", "f", {}⟩ with
            | none => False
            | some (r2, db2) =>
                r2.cached = true ∧ r2.linesChanged = some 0
                ∧ r2.content = unchangedLabel {} (countLines "a\nb\nc")
                    (estimateTokens (if isPartialReq {} then sliceLines {} "a\nb\nc" else "a\nb\nc"))
                ∧ selectReads db2 "s" "main" "f"
                    = [⟨"s", "main", "f", (fun s : String => s) "a\nb\nc", 2⟩]) := by
  have hinj : Function.Injective (fun s : String => s) := fun _ _ hh => hh
  have hw : wfDb (fun s : String => s) witFs emptyDb := by
    constructor
    · intro v hv; cases hv
    · intro m hm; cases hm
  have hnp : noPointer emptyDb "s" "main" "f" := by
    intro r hr; cases hr
  exact ⟨⟨hinj, hw, rfl, rfl, hnp⟩,
    readFile_idempotent_unchanged (fun s => s) (fun _ => false) 1 2 witFs emptyDb
      "s" "main" "f" {} ⟨"a\nb\nc", 7⟩ hinj hw rfl rfl hnp⟩

/-- Witness for C6 at a concrete input: session `"s2"` reads file `"f"` first;
session `"s1"`'s first read of the same unchanged file is still uncached full
content. -/
theorem readFile_session_isolation_witness :
    (Function.Injective (fun s : String => s)
      ∧ wfDb (fun s : String => s) witFs emptyDb
      ∧ noPointer emptyDb "s1" "main" "f"
      ∧ (∀ r ∈ [(⟨"s2", "main", "f", {}⟩ : Request)], r.sessionId ≠ "s1")
      ∧ witFs "f" = some ⟨"a\nb\nc", 7⟩
      ∧ (fun _ : String => false) "f" = false)
    ∧ (match readFile (fun s : String => s) (fun _ => false) 9 witFs
        (runReads (fun s : String => s) (fun _ => false) 1 witFs emptyDb
          [⟨"s2", "main", "f", {}⟩])
        ⟨"s1", "main", "f", {}⟩ with
      | none => False
      | some (res, _) =>
          res = ⟨false, "a\nb\nc", none, none, countLines "a\nb\nc",
            (fun s : String => s) "a\nb\nc"⟩) := by
  have hinj : Function.Injective (fun s : String => s) := fun _ _ hh => hh
  have hw : wfDb (fun s : String => s) witFs emptyDb := by
    constructor
    · intro v hv; cases hv
    · intro m hm; cases hm
  have hnp : noPointer emptyDb "s1" "main" "f" := by
    intro r hr; cases hr
  have hreqs : ∀ r ∈ [(⟨"s2", "main", "f", {}⟩ : Request)], r.sessionId ≠ "s1" := by
    intro r hr
    rw [List.mem_singleton] at hr
    subst hr
    decide
  exact ⟨⟨hinj, hw, hnp, hreqs, rfl, rfl⟩,
    readFile_session_isolation (fun s => s) (fun _ => false) 1 9 witFs "s1" "main" "f"
      ⟨"a\nb\nc", 7⟩ emptyDb [⟨"s2", "main", "f", {}⟩] hinj hw hnp hreqs rfl rfl⟩

/-- A store that already holds the revision and a matching mtime row for file
`"f"`: the fast-path input of the C7 witness. -/
def exC7Db : Db :=
  ⟨[⟨"f", "a\nb\nc", "a\nb\nc", 3, 0⟩], [], [⟨"f", "a\nb\nc", 7⟩], [], [], 0, []⟩

/-- Witness for C7 at a concrete input: the result of reading `"f"` is the
same with the matching mtime entry present and with the mtime table emptied. -/
theorem readFile_mtime_result_invariant_witness :
    (Function.Injective (fun s : String => s)
      ∧ wfDb (fun s : String => s) witFs exC7Db
      ∧ wfDb (fun s : String => s) witFs { exC7Db with fileMtimes := [] })
    ∧ (readFile (fun s : String => s) (fun _ => false) 3 witFs
        { exC7Db with fileMtimes := [] } ⟨"s", "main", "f", {}⟩).map (fun x => x.1)
      = (readFile (fun s : String => s) (fun _ => false) 3 witFs exC7Db
        ⟨"s", "main", "f", {}⟩).map (fun x => x.1) := by
  have hinj : Function.Injective (fun s : String => s) := fun _ _ hh => hh
  have hw : wfDb (fun s : String => s) witFs exC7Db := by
    constructor
    · intro v hv
      simp only [exC7Db, List.mem_singleton] at hv
      subst hv
      exact ⟨rfl, rfl⟩
    · intro m hm
      simp only [exC7Db, List.mem_singleton] at hm
      subst hm
      exact fun _ => rfl
  have hwM : wfDb (fun s : String => s) witFs { exC7Db with fileMtimes := [] } := by
    constructor
    · intro v hv
      simp only [exC7Db, List.mem_singleton] at hv
      subst hv
      exact ⟨rfl, rfl⟩
    · intro m hm
      simp [exC7Db] at hm
  exact ⟨⟨hinj, hw, hwM⟩,
    readFile_mtime_result_invariant (fun s => s) (fun _ => false) 3 witFs exC7Db
      ⟨"s", "main", "f", {}⟩ [] hinj hw hwM⟩

/-- A store in which session `"s"` holds a stale pointer to a pruned revision
`"OLD"` of file `"f"`: the input of the C8 witness. -/
def exC8Db : Db := ⟨[], [⟨"s", "main", "f", "OLD", 0⟩], [], [], [], 0, []⟩

/-- Witness for C8 at a concrete input: stale pointer `"OLD"`, no stored
revision for it; the read degrades to a first read. -/
theorem readFile_staleMissing_witness :
    (Function.Injective (fun s : String => s)
      ∧ wfDb (fun s : String => s) witFs exC8Db
      ∧ witFs "f" = some ⟨"a\nb\nc", 7⟩
      ∧ (fun _ : String => false) "f" = false
      ∧ selectReads exC8Db "s" "main" "f" = [⟨"s", "main", "f", "OLD", 0⟩]
      ∧ ("OLD" : String) ≠ (fun s : String => s) "a\nb\nc"
      ∧ selectVersion exC8Db "f" "OLD" = none)
    ∧ (match readFile (fun s : String => s) (fun _ => false) 4 witFs exC8Db
        ⟨"s", "main", "f", {}⟩ with
      | none => False
      | some (res, db') =>
          res = ⟨false, if isPartialReq {} then sliceLines {} "a\nb\nc" else "a\nb\nc",
            none, none, countLines "a\nb\nc", (fun s : String => s) "a\nb\nc"⟩
          ∧ wfDb (fun s : String => s) witFs db'
          ∧ (∃ v, selectVersion db' "f" ((fun s : String => s) "a\nb\nc") = some v
              ∧ v.content = "a\nb\nc" ∧ v.lines = countLines "a\nb\nc")
          ∧ selectReads db' "s" "main" "f"
              = [⟨"s", "main", "f", (fun s : String => s) "a\nb\nc", 4⟩]) := by
  have hinj : Function.Injective (fun s : String => s) := fun _ _ hh => hh
  have hw : wfDb (fun s : String => s) witFs exC8Db := by
    constructor
    · intro v hv; cases hv
    · intro m hm; cases hm
  have hne : (⟨"s", "main", "f", "OLD", 0⟩ : ReadRow).hash
      ≠ (fun s : String => s) (⟨"a\nb\nc", 7⟩ : FsEntry).content := by decide
  exact ⟨⟨hinj, hw, rfl, rfl, rfl, by decide, rfl⟩,
    readFile_staleMissing_spec (fun s => s) (fun _ => false) 4 witFs exC8Db
      "s" "main" "f" {} ⟨"a\nb\nc", 7⟩ ⟨"s", "main", "f", "OLD", 0⟩ [] hinj hw rfl rfl rfl hne rfl⟩

/-- Witness for C10 at a concrete input: every path ignored; reading `"f"`
returns the content uncached and leaves all cache tables unchanged. -/
theorem readFile_ignored_bypass_witness :
    (witFs "f" = some ⟨"a\nb\nc", 7⟩ ∧ (fun _ : String => true) "f" = true)
    ∧ (match readFile (fun s : String => s) (fun _ => true) 5 witFs exC1Db
        ⟨"s", "main", "f", {}⟩ with
      | none => False
      | some (res, db') =>
          res = ⟨false, if isPartialReq {} then sliceLines {} "a\nb\nc" else "a\nb\nc",
            none, none, countLines "a\nb\nc", (fun s : String => s) "a\nb\nc"⟩
          ∧ db'.fileVersions = exC1Db.fileVersions
          ∧ db'.sessionReads = exC1Db.sessionReads
          ∧ db'.fileMtimes = exC1Db.fileMtimes
          ∧ db'.sessionEvents = exC1Db.sessionEvents
          ∧ db'.sessionMetrics = addMetricsRows exC1Db.sessionMetrics "s" "main"
              (({} : ReadOptions)).toolName
              (estimateTokens (if isPartialReq {} then sliceLines {} "a\nb\nc" else "a\nb\nc"))
              (estimateTokens (if isPartialReq {} then sliceLines {} "a\nb\nc" else "a\nb\nc"))) :=
  ⟨⟨rfl, rfl⟩,
    readFile_ignored_bypass (fun s => s) (fun _ => true) 5 witFs exC1Db
      "s" "main" "f" {} ⟨"a\nb\nc", 7⟩ rfl rfl⟩
